import Mathlib

/-!
Verification development for the docgen engine in cmd/docgen/dst/dst.go
(package main of the yamldoc-go repository).

The file shallowly embeds the documentation-generation core of dst.go:
the struct collection pass (collectStructsWithOpts, collectStructsFromDSTNode,
parseStructuresFromDSTSpec, collectFields, collectUnresolvedExternalStructs,
collectPartEnumInformation, collectRequestPartDefinitions, getFieldType,
formatFieldType, uncommentDecorationNode) and the synthesis phase of process
(example propagation and back-reference computation).

Modelling conventions:
  - dst syntax nodes are modelled first-order: a file is its list of GenDecl
    nodes in traversal order (dst.Inspect visits declarations in order and
    GenDecls do not nest); a TypeSpec whose Type is a StructType carries its
    field list; field types are a small inductive mirroring the dst shapes
    the code dispatches on (Ident with Path/Obj, ArrayType, MapType,
    StarExpr, SelectorExpr, StructType, InterfaceType, other).
  - reflect.StructTag parsing is Go standard library (external to this
    repository); a raw struct tag is modelled post-parse, as the key/value
    association list, with Get as lookup returning the empty string when the
    key is absent.
  - parseComment calls yaml.Unmarshal, an external collaborator; it is
    modelled as an abstract pure function carried in the environment.
  - package loading is external; a package is its syntax (list of files) and
    the set of import paths present in its Imports map, resolved through a
    global path-to-package table in the environment.
  - Ident.Obj non-nil is a Boolean on the ident; Obj.Decl is recovered by
    looking up the first TypeSpec of that name in the current package
    (dst resolves local objects to their declaration).
  - dave/dst Ident.String renders Path.Name when a path is present.
  - Go runtime panics (out-of-range indexing, failed type assertions, nil
    dereferences) and log.Fatalf are modelled by an Option result, none
    meaning abnormal termination.
  - the mutual recursion of the collection pass is indexed by a fuel
    parameter consumed at every call; in the program the recursion is bounded
    by the process-wide uniqueStructures set, and every theorem below either
    holds for all fuel values or is evaluated at a concrete sufficient fuel.
  - Go strings are ASCII in all relevant inputs; ToLower, EqualFold and
    unicode.IsUpper are modelled at ASCII precision.
  - the process-wide mutable state is threaded explicitly: the set
    uniqueStructures, the emitted log lines, and additionally a trace of the
    names inserted into the set, in insertion order, used to state
    deduplication properties. The log call in the default branch of
    formatFieldType is dropped (the branch only returns the empty string).
-/

/-- Go strings.HasPrefix, over characters. -/
def goIsPrefixOf (p s : String) : Bool := p.toList.isPrefixOf s.toList

/-- Go strings.TrimPrefix. -/
def goTrimPrefix (s pre : String) : String :=
  if goIsPrefixOf pre s then String.mk (s.toList.drop pre.toList.length) else s

/-- Go strings.HasSuffix. -/
def goHasSuffix (s suf : String) : Bool := suf.toList.isSuffixOf s.toList

/-- Helper for goContains: substring search over characters. -/
def goContainsAux (pat : List Char) : List Char → Bool
  | [] => pat.isEmpty
  | c :: rest => pat.isPrefixOf (c :: rest) || goContainsAux pat rest

/-- Go strings.Contains. -/
def goContains (s sub : String) : Bool := goContainsAux sub.toList s.toList

/-- Helper for goSplitComma: split a character list on the comma. -/
def splitCommaChars : List Char → List (List Char)
  | [] => [[]]
  | c :: rest =>
    if c = ',' then [] :: splitCommaChars rest
    else
      match splitCommaChars rest with
      | [] => [[c]]
      | g :: gs => (c :: g) :: gs

/-- Go strings.Split with separator comma (the only separator the code uses). -/
def goSplitComma (s : String) : List String := (splitCommaChars s.toList).map String.mk

/-- Go strings.Count with a one-character separator. -/
def goCountChar (s : String) (c : Char) : Nat := s.toList.count c

/-- Go strings.ToLower at ASCII precision. -/
def goToLower (s : String) : String := String.mk (s.toList.map Char.toLower)

/-- Go strings.EqualFold at ASCII precision. -/
def goEqualFold (a b : String) : Bool := goToLower a == goToLower b

/-- Go unicode.IsUpper(rune(s[0])). Indexing an empty Go string panics, hence
the Option result. -/
def goIsUpperFirst (s : String) : Option Bool :=
  match s.toList with
  | [] => none
  | c :: _ => some c.isUpper

/-- Go strings.Trim with a one-character cutset (used to strip quotes). -/
def goTrimChar (s : String) (c : Char) : String :=
  String.mk (((s.toList.dropWhile (· = c)).reverse.dropWhile (· = c)).reverse)

/-- Go path.Base. -/
def goPathBase (p : String) : String :=
  if p = "" then "."
  else
    let stripped := (p.toList.reverse.dropWhile (· = '/')).reverse
    let base := (stripped.reverse.takeWhile (· ≠ '/')).reverse
    if stripped.isEmpty then "/" else String.mk base

/-- The part of a name after the last dot, as computed by the
strings.LastIndex logic at the top of collectPartEnumInformation. -/
def afterLastDot (s : String) : String :=
  if s.toList.contains '.' then
    String.mk ((s.toList.reverse.takeWhile (· ≠ '.')).reverse)
  else s

/-- wrapStructName from dst.go: joins a package prefix and a name with a dot,
returning the bare name when the prefix is empty. -/
def wrapStructName (pre suf : String) : String :=
  if pre = "" then suf else pre ++ "." ++ suf

/-- dave/dst Ident.String: Path.Name when a path is present, else the name. -/
def identString (name path : String) : String :=
  if path = "" then name else path ++ "." ++ name

/-- reflect.StructTag.Get on the post-parse association list: the value of the
first binding of the key, or the empty string. -/
def tagGet (t : List (String × String)) (k : String) : String :=
  ((t.find? (fun p => p.1 == k)).map (·.2)).getD ""

/-- uncommentDecorationNode from dst.go: strips the leading comment marker of
each decoration line, drops lines containing the nolint marker, and joins with
newlines placed after every position except the last. -/
def uncommentDecorationNode : List String → String
  | [] => ""
  | p :: rest =>
    let t := goTrimPrefix p "//"
    if goContains t "nolint:" then uncommentDecorationNode rest
    else t ++ (if rest.isEmpty then "" else "\n") ++ uncommentDecorationNode rest

/-- Example from dst.go: a named example value attached to documentation. -/
structure ExampleG where
  name : String
  value : String
deriving DecidableEq

/-- Text from dst.go: parsed documentation of a struct or field. -/
structure TextG where
  comment : String
  description : String
  examples : List ExampleG
  values : List String
deriving DecidableEq

/-- Field from dst.go: one documented member of a struct. -/
structure FieldG where
  name : String
  tag : String
  typ : String
  typeRef : String
  text : TextG
  note : String
  enumFields : List String
deriving DecidableEq

/-- An Appearance from dst.go, observed through the names the renderer reads:
the GetName of the parent Struct and the field name recorded with it. -/
structure AppearanceO where
  typeName : String
  fieldName : String
deriving DecidableEq

/-- The dst expression shapes the field-type dispatchers handle: Ident (with
its Path and whether Obj is non-nil), ArrayType, MapType, StarExpr,
SelectorExpr (the code recurses into Sel), StructType, InterfaceType, and a
default for everything else. -/
inductive TypeExprG where
  | ident (name : String) (path : String) (obj : Bool)
  | arrayT (elt : TypeExprG)
  | mapT (key value : TypeExprG)
  | starT (x : TypeExprG)
  | selectorT (sel : TypeExprG)
  | structT
  | interfaceT
  | otherT
deriving DecidableEq

/-- One dst field declaration: names, the parsed struct tag (none when the
field carries no tag), the type expression, and the leading comment lines. -/
structure FieldNode where
  names : List String
  tag : Option (List (String × String))
  ftype : TypeExprG
  comments : List String
deriving DecidableEq

/-- An element of a composite literal, as collectRequestPartDefinitions
consumes it: a KeyValueExpr of two BasicLits, or anything else (on which the
type assertions panic). -/
inductive ValElt where
  | kvBasic (key value : String)
  | badElt
deriving DecidableEq

/-- A value expression of a ValueSpec: a composite literal or other. -/
inductive ValExpr where
  | compositeLit (elts : List ValElt)
  | otherVal
deriving DecidableEq

/-- The body of a TypeSpec: a StructType with its fields, or another type. -/
inductive TypeBodyG where
  | structBody (fields : List FieldNode)
  | otherBody
deriving DecidableEq

/-- A dst Spec: a TypeSpec (with its own decorations, name, and optional
type body, none modelling a nil Type), a ValueSpec (names, decorations,
values), or another spec kind. -/
inductive SpecG where
  | typeSpec (comments : List String) (name : String) (body : Option TypeBodyG)
  | valueSpec (names : List String) (comments : List String) (values : List ValExpr)
  | otherSpec
deriving DecidableEq

/-- The token of a GenDecl, as the code distinguishes them. -/
inductive TokG where
  | constTok
  | varTok
  | typeTok
  | otherTok
deriving DecidableEq

/-- A dst GenDecl: token, leading decorations, and its specs. -/
structure GenDeclG where
  tok : TokG
  comments : List String
  specs : List SpecG
deriving DecidableEq

/-- A loaded package: its syntax (files, each a list of GenDecls in
traversal order) and the import paths present in its Imports map. -/
structure PackageG where
  files : List (List GenDeclG)
  imports : List String
deriving DecidableEq

/-- The structType / Struct data the pass produces per collected struct. -/
structure StructS where
  name : String
  packagePrefix : String
  text : TextG
  fields : List FieldG
  requestPartValues : List ExampleG
deriving DecidableEq

/-- Struct.GetName from dst.go. -/
def getNameS (s : StructS) : String := wrapStructName s.packagePrefix s.name

/-- A Struct after the synthesis phase of process: the same data plus the
propagated examples (inside text) and the AppearsIn list. -/
structure StructOut where
  name : String
  packagePrefix : String
  text : TextG
  fields : List FieldG
  requestPartValues : List ExampleG
  appearsIn : List AppearanceO
deriving DecidableEq

/-- The diagnostic log lines the collection pass can emit. -/
inductive LogE where
  | missingDoc (fieldType : TypeExprG)
  | noPackage (structName : String) (path : String)
deriving DecidableEq

/-- The process-wide mutable state: the uniqueStructures set (ordered list of
inserted keys), the emitted log lines, and the trace of set insertions in
order (an observer of the dedup behaviour, not present in the program). -/
structure DState where
  uniqueStructures : List String
  logs : List LogE
  trace : List String
deriving DecidableEq

/-- Insertion into uniqueStructures, recording the key in the trace. -/
def dsInsert (n : String) (st : DState) : DState :=
  { st with uniqueStructures := st.uniqueStructures ++ [n], trace := st.trace ++ [n] }

/-- Appending one log line. -/
def dsLog (e : LogE) (st : DState) : DState :=
  { st with logs := st.logs ++ [e] }

/-- The environment: the global import-path-to-package table, and the external
annotation parser parseComment. -/
structure EnvG where
  pkgs : List (String × PackageG)
  pc : String → TextG

/-- collectStructOptions from dst.go. -/
structure OptsG where
  pkg : PackageG
  structName : String
  packagePrefix : String

/-- The package reached through pkg.Imports for a path: present when the path
is in the Imports map and the global table resolves it. -/
def pkgImport (env : EnvG) (pkg : PackageG) (path : String) : Option PackageG :=
  if pkg.imports.contains path then env.pkgs.lookup path else none

/-- The declaration behind Ident.Obj: the first TypeSpec of the given name in
the current package. -/
def lookupTypeSpec (pkg : PackageG) (n : String) : Option SpecG :=
  ((pkg.files.flatMap id).flatMap (·.specs)).find? fun sp =>
    match sp with
    | .typeSpec _ nm _ => nm == n
    | _ => false

/-- The Start decorations of a spec node. -/
def specStartComments : SpecG → List String
  | .typeSpec cs _ _ => cs
  | .valueSpec _ cs _ => cs
  | .otherSpec => []

/-- getFieldType from dst.go: the type-reference name of a field type. A map
follows only the value side; a pointer applies the package prefix; a path
ident is qualified through path.Base; the default returns the empty string. -/
def getFieldType (p : TypeExprG) (pfx : String) (apply : Bool) : String :=
  match p with
  | .mapT _ v => getFieldType v pfx false
  | .ident n pth _ =>
    if pth ≠ "" then wrapStructName (goPathBase pth) n
    else if apply ∧ pfx ≠ "" then wrapStructName pfx n
    else n
  | .arrayT elt => getFieldType elt pfx false
  | .starT x => getFieldType x pfx true
  | .selectorT sel => getFieldType sel pfx false
  | _ => ""

/-- formatFieldType from dst.go: the rendered type signature of a field type.
A map renders both the key and the value. -/
def formatFieldType (p : TypeExprG) (pfx : String) (apply : Bool) : String :=
  match p with
  | .mapT k v =>
    "map[" ++ formatFieldType k pfx false ++ "]" ++ formatFieldType v pfx false
  | .ident n pth _ =>
    if pth ≠ "" then wrapStructName (goPathBase pth) n
    else if apply ∧ pfx ≠ "" then wrapStructName pfx n
    else n
  | .arrayT elt => "[]" ++ formatFieldType elt pfx false
  | .structT => "struct"
  | .starT x => formatFieldType x pfx true
  | .selectorT sel => formatFieldType sel pfx false
  | .interfaceT => "interface\x7b\x7d"
  | .otherT => ""

/-- The inner spec loop of collectPartEnumInformation: over the ValueSpecs of
a matched constant group, skipping unnamed specs and the constant named limit,
and reading each value from the last leading comment line of the spec with the
name marker prefix stripped. Indexing the last comment of a spec without
comments panics (none). -/
def collectEnumSpecs : List SpecG → Option (List String)
  | [] => some []
  | .valueSpec names comments _ :: rest =>
    if names.isEmpty then collectEnumSpecs rest
    else if names.headD "" == "limit" then collectEnumSpecs rest
    else
      match comments.getLast? with
      | none => none
      | some last =>
        (collectEnumSpecs rest).map fun vs => goTrimPrefix last "// name:" :: vs
  | _ :: rest => collectEnumSpecs rest

/-- The GenDecl loop of collectPartEnumInformation: constant groups whose last
leading comment, stripped of the comment marker, equals the name marker of the
type contribute their spec values in order. -/
def collectEnumGroups (fieldName : String) : List GenDeclG → Option (List String)
  | [] => some []
  | g :: rest =>
    if g.tok ≠ .constTok then collectEnumGroups fieldName rest
    else if g.comments.isEmpty then collectEnumGroups fieldName rest
    else if goTrimPrefix ((g.comments.getLast?).getD "") "// " ≠ fieldName then
      collectEnumGroups fieldName rest
    else
      match collectEnumSpecs g.specs with
      | none => none
      | some vs => (collectEnumGroups fieldName rest).map fun ws => vs ++ ws

/-- collectPartEnumInformation from dst.go: enum values for a type name,
collected by scanning the node for constant groups preceded by the marker
comment name:TypeName (the type name is first stripped to the part after its
last dot). -/
def collectPartEnumInformation (node : List GenDeclG) (typeName : String) :
    Option (List String) :=
  collectEnumGroups ("name:" ++ afterLastDot typeName) node

/-- The element loop of collectRequestPartDefinitions: every element must be a
KeyValueExpr of BasicLits (the type assertions panic otherwise); keys and
values are stripped of surrounding quotes. -/
def collectReqElts : List ValElt → Option (List ExampleG)
  | [] => some []
  | .kvBasic k v :: rest =>
    (collectReqElts rest).map fun es => ⟨goTrimChar k '"', goTrimChar v '"'⟩ :: es
  | .badElt :: _ => none

/-- The spec loop of collectRequestPartDefinitions: unnamed specs are skipped;
a named spec that is not RequestPartDefinitions stops the loop for this
GenDecl; indexing Values of a spec without values panics; a first value that
is not a composite literal is skipped. -/
def collectReqSpecs : List SpecG → Option (List ExampleG)
  | [] => some []
  | .valueSpec names _ values :: rest =>
    if names.isEmpty then collectReqSpecs rest
    else if names.headD "" ≠ "RequestPartDefinitions" then some []
    else
      match values.head? with
      | none => none
      | some v =>
        match v with
        | .compositeLit elts =>
          match collectReqElts elts with
          | none => none
          | some es => (collectReqSpecs rest).map fun fs => es ++ fs
        | .otherVal => collectReqSpecs rest
  | _ :: rest => collectReqSpecs rest

/-- collectRequestPartDefinitions from dst.go: part definitions read from the
var group declaring RequestPartDefinitions; groups without leading comments
are skipped. -/
def collectRequestPartDefinitions (node : List GenDeclG) : Option (List ExampleG) :=
  node.foldl
    (fun acc g =>
      match acc with
      | none => none
      | some es =>
        if g.tok ≠ .varTok then some es
        else if g.comments.isEmpty then some es
        else
          match collectReqSpecs g.specs with
          | none => none
          | some es2 => some (es ++ es2))
    (some [])

mutual

/-- collectStructsWithOpts from dst.go: iterates the files of the package,
keeping the first parsed struct as the main result and accumulating every
further parsed struct and all extras. -/
def collectStructsWithOpts : Nat → EnvG → OptsG → DState →
    Option (Option StructS × List StructS × DState)
  | 0, _, _, _ => none
  | Nat.succ fuel, env, opts, st =>
    withOptsLoop fuel env opts.pkg.files opts none [] st

/-- The file loop of collectStructsWithOpts. -/
def withOptsLoop : Nat → EnvG → List (List GenDeclG) → OptsG → Option StructS →
    List StructS → DState → Option (Option StructS × List StructS × DState)
  | 0, _, _, _, _, _, _ => none
  | Nat.succ fuel, env, files, opts, mainAcc, extrasAcc, st =>
    match files with
    | [] => some (mainAcc, extrasAcc, st)
    | file :: rest =>
      match collectStructsFromDSTNode fuel env file opts st with
      | none => none
      | some (parsed, extra, st') =>
        match parsed with
        | none => withOptsLoop fuel env rest opts mainAcc (extrasAcc ++ extra) st'
        | some p =>
          match mainAcc with
          | none => withOptsLoop fuel env rest opts (some p) (extrasAcc ++ extra) st'
          | some m =>
            withOptsLoop fuel env rest opts (some m) (extrasAcc ++ [p] ++ extra) st'

/-- collectStructsFromDSTNode from dst.go: inspects a file node for GenDecls
and parses each of their specs, with the same main/extras accumulation. -/
def collectStructsFromDSTNode : Nat → EnvG → List GenDeclG → OptsG → DState →
    Option (Option StructS × List StructS × DState)
  | 0, _, _, _, _ => none
  | Nat.succ fuel, env, file, opts, st =>
    fromNodeLoop fuel env (file.flatMap fun g => g.specs.map fun s => (g.comments, s))
      file opts none [] st

/-- The GenDecl/spec loop of collectStructsFromDSTNode: each pair carries the
decorations of the enclosing GenDecl (the node argument of
parseStructuresFromDSTSpec) and the spec; the file is the original node. -/
def fromNodeLoop : Nat → EnvG → List (List String × SpecG) → List GenDeclG →
    OptsG → Option StructS → List StructS → DState →
    Option (Option StructS × List StructS × DState)
  | 0, _, _, _, _, _, _, _ => none
  | Nat.succ fuel, env, prs, file, opts, mainAcc, extrasAcc, st =>
    match prs with
    | [] => some (mainAcc, extrasAcc, st)
    | (nc, sp) :: rest =>
      match parseStructuresFromDSTSpec fuel env nc file sp opts st with
      | none => none
      | some (parsed, extra, st') =>
        match parsed with
        | none => fromNodeLoop fuel env rest file opts mainAcc (extrasAcc ++ extra) st'
        | some p =>
          match mainAcc with
          | none => fromNodeLoop fuel env rest file opts (some p) (extrasAcc ++ extra) st'
          | some m =>
            fromNodeLoop fuel env rest file opts (some m) (extrasAcc ++ [p] ++ extra) st'

/-- parseStructuresFromDSTSpec from dst.go: a TypeSpec whose type is a
StructType, whose name folds equal to the requested name and starts with an
upper-case letter, is parsed: part definitions are collected for Request
types, the struct documentation comes from the node decorations through
parseComment, and the fields are collected. -/
def parseStructuresFromDSTSpec : Nat → EnvG → List String → List GenDeclG →
    SpecG → OptsG → DState → Option (Option StructS × List StructS × DState)
  | 0, _, _, _, _, _, _ => none
  | Nat.succ fuel, env, nodeComments, original, sp, opts, st =>
    match sp with
    | .typeSpec _ name body =>
      match body with
      | none => some (none, [], st)
      | some .otherBody => some (none, [], st)
      | some (.structBody fieldsL) =>
        if ¬ goEqualFold opts.structName name then some (none, [], st)
        else
          match goIsUpperFirst name with
          | none => none
          | some false => some (none, [], st)
          | some true =>
            match
              (if name == "Request" || goHasSuffix name ".Request" then
                collectRequestPartDefinitions original
              else some []) with
            | none => none
            | some partDefs =>
              let text := env.pc (uncommentDecorationNode nodeComments)
              match collectFields fuel env fieldsL original opts.packagePrefix opts st with
              | none => none
              | some (fields, structures, st') =>
                some (some ⟨name, opts.packagePrefix, text, fields, partDefs⟩,
                  structures, st')
    | _ => some (none, [], st)

/-- collectFields from dst.go: processes the field list of a struct node. -/
def collectFields : Nat → EnvG → List FieldNode → List GenDeclG → String →
    OptsG → DState → Option (List FieldG × List StructS × DState)
  | 0, _, _, _, _, _, _ => none
  | Nat.succ fuel, env, fieldsL, original, pfx, opts, st =>
    collectFieldsLoop fuel env fieldsL [] [] original pfx opts st

/-- The field loop of collectFields, with the fields and foundStructures
accumulators explicit. A field without a tag or without names is skipped. For
a field without a mapping tag, an empty or dash primary yaml key with no
comma in the yaml tag skips the field, and missing documentation logs a
diagnostic and skips the field; a mapping field instead requires an Ident
type and collects its enum information. The nodoc directive skips the field.
The embedded branch (no names) is kept as in the source although the guard at
the top of the loop makes it unreachable. A visible field is appended with
its rendered type, type reference, parsed documentation and enum fields,
after collecting unresolved external structs from its type. -/
def collectFieldsLoop : Nat → EnvG → List FieldNode → List FieldG →
    List StructS → List GenDeclG → String → OptsG → DState →
    Option (List FieldG × List StructS × DState)
  | 0, _, _, _, _, _, _, _, _ => none
  | Nat.succ fuel, env, fieldsL, accF, accS, original, pfx, opts, st =>
    match fieldsL with
    | [] => some (accF, accS, st)
    | f :: rest =>
      match f.tag with
      | none => collectFieldsLoop fuel env rest accF accS original pfx opts st
      | some tagA =>
        if f.names.length < 1 then
          collectFieldsLoop fuel env rest accF accS original pfx opts st
        else
          let documentation := uncommentDecorationNode f.comments
          let mapping := tagGet tagA "mapping"
          let yamlTags := tagGet tagA "yaml"
          let yamlTag0 := (goSplitComma yamlTags).headD ""
          match
            (if mapping == "" then
              if (yamlTag0 == "" || yamlTag0 == "-") ∧ goCountChar yamlTags ',' < 1 then
                none
              else if documentation == "" then none
              else some (goToLower yamlTag0, some ([] : List String))
            else
              match f.ftype with
              | .ident n _ _ =>
                match collectPartEnumInformation original n with
                | none => some ("", none)
                | some efs => some (yamlTag0, some efs)
              | _ => none) with
          | none =>
            if mapping == "" ∧
                ¬ ((yamlTag0 == "" || yamlTag0 == "-") ∧ goCountChar yamlTags ',' < 1) ∧
                documentation == "" then
              collectFieldsLoop fuel env rest accF accS original pfx opts
                (dsLog (.missingDoc f.ftype) st)
            else collectFieldsLoop fuel env rest accF accS original pfx opts st
          | some (_, none) => none
          | some (yamlTag, some enumFields) =>
            if goContains documentation "docgen:nodoc" then
              collectFieldsLoop fuel env rest accF accS original pfx opts st
            else if f.names.length == 0 then
              match f.ftype with
              | .ident n p _obj =>
                if p ≠ "" then
                  match pkgImport env opts.pkg p with
                  | none => some (accF, [], dsLog (.noPackage opts.structName p) st)
                  | some spkg =>
                    match collectStructsWithOpts fuel env ⟨spkg, n, goPathBase p⟩ st with
                    | none => none
                    | some (mainO, extra, st') =>
                      match mainO with
                      | none => none
                      | some s' =>
                        collectFieldsLoop fuel env rest (accF ++ s'.fields)
                          (accS ++ extra) original pfx opts st'
                else if _obj then
                  match lookupTypeSpec opts.pkg n with
                  | none => none
                  | some sp =>
                    match parseStructuresFromDSTSpec fuel env (specStartComments sp)
                        [] sp ⟨opts.pkg, n, opts.packagePrefix⟩ st with
                    | none => none
                    | some (mainO, extra, st') =>
                      match mainO with
                      | none => none
                      | some s' =>
                        collectFieldsLoop fuel env rest (accF ++ s'.fields)
                          (accS ++ extra) original pfx opts st'
                else none
              | _ => collectFieldsLoop fuel env rest accF accS original pfx opts st
            else
              match goIsUpperFirst (f.names.headD "") with
              | none => none
              | some false => collectFieldsLoop fuel env rest accF accS original pfx opts st
              | some true =>
                let fieldType := formatFieldType f.ftype pfx false
                let name1 := if f.names.headD "" == "" then fieldType else f.names.headD ""
                let fieldTypeRef := getFieldType f.ftype pfx false
                match collectUnresolvedExternalStructs fuel env f.ftype opts st with
                | none => none
                | some (found, st') =>
                  collectFieldsLoop fuel env rest
                    (accF ++ [⟨name1, yamlTag, fieldType, fieldTypeRef,
                      env.pc documentation, "", enumFields⟩])
                    (accS ++ found) original pfx opts st'

/-- collectUnresolvedExternalStructs from dst.go: walks a field type
expression; maps recurse into both the key and the value; idents resolve a
local object, an imported package type, or a same-package named type, each
guarded by the uniqueStructures set; arrays, pointers and selectors recurse;
struct literals and everything else contribute nothing. -/
def collectUnresolvedExternalStructs : Nat → EnvG → TypeExprG → OptsG →
    DState → Option (List StructS × DState)
  | 0, _, _, _, _ => none
  | Nat.succ fuel, env, ty, opts, st =>
    match ty with
    | .mapT k v =>
      match collectUnresolvedExternalStructs fuel env k opts st with
      | none => none
      | some (r1, st1) =>
        match collectUnresolvedExternalStructs fuel env v opts st1 with
        | none => none
        | some (r2, st2) => some (r1 ++ r2, st2)
    | .ident n p obj =>
      if obj then
        match lookupTypeSpec opts.pkg n with
        | none => none
        | some sp =>
          let structName :=
            if opts.packagePrefix ≠ "" then wrapStructName opts.packagePrefix n else n
          if structName ∈ st.uniqueStructures then some ([], st)
          else
            match parseStructuresFromDSTSpec fuel env (specStartComments sp) [] sp
                ⟨opts.pkg, n, opts.packagePrefix⟩ (dsInsert structName st) with
            | none => none
            | some (mainO, extra, st') => some (mainO.toList ++ extra, st')
      else if p ≠ "" then
        let prefixSmallName := wrapStructName (goPathBase p) n
        if prefixSmallName ∈ st.uniqueStructures then some ([], st)
        else
          let st1 := dsInsert prefixSmallName st
          if identString n p ∈ st1.uniqueStructures then some ([], st1)
          else
            let st2 := dsInsert (identString n p) st1
            match pkgImport env opts.pkg p with
            | none => some ([], dsLog (.noPackage opts.structName p) st2)
            | some spkg =>
              match collectStructsWithOpts fuel env ⟨spkg, n, goPathBase p⟩ st2 with
              | none => none
              | some (mainO, extra, st') => some (mainO.toList ++ extra, st')
      else
        if n ∈ st.uniqueStructures then some ([], st)
        else
          match collectStructsWithOpts fuel env ⟨opts.pkg, n, ""⟩ (dsInsert n st) with
          | none => none
          | some (mainO, extra, st') => some (mainO.toList ++ extra, st')
    | .arrayT elt => collectUnresolvedExternalStructs fuel env elt opts st
    | .structT => some ([], st)
    | .starT x => collectUnresolvedExternalStructs fuel env x opts st
    | .selectorT sel => collectUnresolvedExternalStructs fuel env sel opts st
    | .interfaceT => some ([], st)
    | .otherT => some ([], st)

end

/-- The collection half of process from dst.go: for each loaded package,
collectStructsWithOpts is run for the requested structure name with an empty
package prefix; the main result, if any, is appended before the extras. -/
def processCollect (fuel : Nat) (env : EnvG) (pkgs : List PackageG)
    (structureName : String) (st : DState) : Option (List StructS × DState) :=
  match pkgs with
  | [] => some ([], st)
  | pkg :: rest =>
    match collectStructsWithOpts fuel env ⟨pkg, structureName, ""⟩ st with
    | none => none
    | some (mainO, extra, st') =>
      match processCollect fuel env rest structureName st' with
      | none => none
      | some (l, st'') => some (mainO.toList ++ extra ++ l, st'')

/-- Go map-of-slice append: extends the slice bound to the key, creating the
binding if absent; the association list keeps first-insertion order. -/
def mapAppend {α : Type} (m : List (String × List α)) (k : String) (xs : List α) :
    List (String × List α) :=
  match m with
  | [] => [(k, xs)]
  | (k', ys) :: rest =>
    if k' == k then (k', ys ++ xs) :: rest else (k', ys) :: mapAppend rest k xs

/-- Go map lookup on the association-list model. -/
def lookupM {α : Type} (k : String) : List (String × α) → Option α
  | [] => none
  | (k1, v) :: rest => if k1 == k then some v else lookupM k rest

/-- The inner field loop of the first synthesis loop of process: a field with
an empty type reference is skipped; otherwise its examples, when present, are
appended under its type reference in the extraExamples map, and one Appearance
naming the parent and the field tag is appended in the backReferences map. -/
def synthFields (s : StructS) :
    List FieldG → List (String × List ExampleG) × List (String × List AppearanceO) →
    List (String × List ExampleG) × List (String × List AppearanceO)
  | [], acc => acc
  | f :: rest, acc =>
    if f.typeRef == "" then synthFields s rest acc
    else
      let ee := if f.text.examples.length > 0 then
          mapAppend acc.1 f.typeRef f.text.examples
        else acc.1
      let br := mapAppend acc.2 f.typeRef [⟨getNameS s, f.tag⟩]
      synthFields s rest (ee, br)

/-- The outer struct loop of the first synthesis loop of process. -/
def synthStructs :
    List StructS → List (String × List ExampleG) × List (String × List AppearanceO) →
    List (String × List ExampleG) × List (String × List AppearanceO)
  | [], acc => acc
  | s :: rest, acc => synthStructs rest (synthFields s s.fields acc)

/-- The first loop of the synthesis half of process: builds the extraExamples
and backReferences maps from every field with a non-empty type reference. -/
def synthMaps (structures : List StructS) :
    List (String × List ExampleG) × List (String × List AppearanceO) :=
  synthStructs structures ([], [])

/-- The second loop of the synthesis half of process: each struct receives the
extra examples and the appearances recorded under its GetName. -/
def processSynthesize (structures : List StructS) : List StructOut :=
  let maps := synthMaps structures
  structures.map fun s =>
    let exs :=
      match lookupM (getNameS s) maps.1 with
      | some extra => s.text.examples ++ extra
      | none => s.text.examples
    let aps :=
      match lookupM (getNameS s) maps.2 with
      | some ref => ref
      | none => []
    ⟨s.name, s.packagePrefix, ⟨s.text.comment, s.text.description, exs, s.text.values⟩,
      s.fields, s.requestPartValues, aps⟩

/-- process from dst.go, end to end on loaded packages: collection, the fatal
exit when nothing was collected, then synthesis (rendering is external). -/
def process (fuel : Nat) (env : EnvG) (pkgs : List PackageG)
    (structureName : String) (st : DState) : Option (List StructOut × DState) :=
  match processCollect fuel env pkgs structureName st with
  | none => none
  | some (structures, st') =>
    if structures.isEmpty then none
    else some (processSynthesize structures, st')

/-- A trivial annotation parser for the concrete scenarios: the raw comment
text becomes both the summary and the description. -/
def pcId : String → TextG := fun s => ⟨s, s, [], []⟩

/-- Demo scenario: a Config struct whose field references Sub. -/
def fieldSubN : FieldNode := ⟨["Sub"], some [("yaml", "sub")], .ident "Sub" "" true, ["// s"]⟩

/-- Demo scenario: the Sub struct has a field referencing Config back. -/
def fieldCfgN : FieldNode := ⟨["Cfg"], some [("yaml", "cfg")], .ident "Config" "" true, ["// c"]⟩

/-- Demo scenario: the TypeSpec of Config. -/
def specConfig : SpecG := .typeSpec ["// C"] "Config" (some (.structBody [fieldSubN]))

/-- Demo scenario: the TypeSpec of Sub. -/
def specSub : SpecG := .typeSpec ["// S"] "Sub" (some (.structBody [fieldCfgN]))

/-- Demo scenario: one file declaring Config and Sub. -/
def fileDemo : List GenDeclG :=
  [⟨.typeTok, ["// C"], [specConfig]⟩, ⟨.typeTok, ["// S"], [specSub]⟩]

/-- Demo scenario: the package of the cyclic Config/Sub pair. -/
def pkgDemo : PackageG := ⟨[fileDemo], []⟩

/-- Demo scenario environment. -/
def envDemo : EnvG := ⟨[], pcId⟩

/-- The empty process state at startup. -/
def st0 : DState := ⟨[], [], []⟩

/-- State extension: the uniqueStructures set and the insertion trace grow by
the same duplicate-free block of names, none of which was already in the set.
Every state transition of the collection pass satisfies this. -/
def ExtD (st st' : DState) : Prop :=
  ∃ d, st'.uniqueStructures = st.uniqueStructures ++ d ∧
    st'.trace = st.trace ++ d ∧ d.Nodup ∧ ∀ n ∈ d, n ∉ st.uniqueStructures

/-- The result of the demo collection run, used to instantiate hypotheses. -/
def demoRun : List StructS × DState :=
  (processCollect 40 envDemo [pkgDemo] "Config" st0).getD ([], st0)

/-- The result of running the demo collection a second time in the same
process, starting from the state the first run left behind. -/
def demoRun2 : List StructS × DState :=
  (processCollect 40 envDemo [pkgDemo] "Config" demoRun.2).getD ([], st0)

/-- Demo scenario for map keys: a field of the KeyT struct. -/
def fieldVN : FieldNode := ⟨["V"], some [("yaml", "v")], .ident "string" "" false, ["// v"]⟩

/-- Demo scenario for map keys: the TypeSpec of KeyT. -/
def specKeyT : SpecG := .typeSpec ["// K"] "KeyT" (some (.structBody [fieldVN]))

/-- Demo scenario for map keys: the package declaring KeyT. -/
def pkgC3 : PackageG := ⟨[[⟨.typeTok, ["// K"], [specKeyT]⟩]], []⟩

/-- Demo scenario for map keys: the options of the enclosing resolution. -/
def optsC3 : OptsG := ⟨pkgC3, "Parent", ""⟩

/-- Specification-side recomputation of the backReferences content for one
qualified name: one Appearance, naming the owning parent and the field tag,
per field occurrence with that non-empty type reference, in traversal
order. -/
def specAppearances (structures : List StructS) (k : String) : List AppearanceO :=
  structures.flatMap fun s =>
    (s.fields.filter fun f => f.typeRef == k && !(f.typeRef == "")).map
      fun f => ⟨getNameS s, f.tag⟩

/-- Specification-side recomputation of the extraExamples content for one
qualified name: the examples of every field occurrence with that non-empty
type reference, concatenated in traversal order. -/
def specExtraExamples (structures : List StructS) (k : String) : List ExampleG :=
  structures.flatMap fun s =>
    (s.fields.filter fun f => f.typeRef == k && !(f.typeRef == "")).flatMap
      fun f => f.text.examples

/-- Demo scenario for example propagation: the internalOptions field of Job,
declaring one example and referencing InternalOptions. -/
def jobFieldG : FieldG :=
  ⟨"InternalOptions", "internal-options", "InternalOptions", "InternalOptions",
    ⟨"c", "d", [⟨"IO Example", "exampleInternalOptions"⟩], []⟩, "", []⟩

/-- Demo scenario for example propagation: the Job struct. -/
def jobS : StructS := ⟨"Job", "", ⟨"jc", "jd", [], []⟩, [jobFieldG], []⟩

/-- Demo scenario for example propagation: the InternalOptions struct,
carrying one type-level example. -/
def ioS : StructS :=
  ⟨"InternalOptions", "", ⟨"ic", "id", [⟨"BulkSize Example", "bulk-size: 10000"⟩], []⟩,
    [], []⟩

/-- A ValueSpec never makes the enum extraction panic when it is unnamed,
named limit, or carries at least one leading comment line. -/
def specCommentsOK : SpecG → Bool
  | .valueSpec names comments _ =>
    names.isEmpty || names.headD "" == "limit" || (comments.getLast?).isSome
  | _ => true

/-- A GenDecl is an enum group matched by the marker: a constant group with
leading comments whose last line, stripped of the comment marker, equals the
name marker. -/
def groupMatches (marker : String) (g : GenDeclG) : Bool :=
  g.tok == TokG.constTok && !g.comments.isEmpty &&
    (goTrimPrefix ((g.comments.getLast?).getD "") "// " == marker)

/-- All matched enum groups have panic-free specs. -/
def enumCommentsOK (gds : List GenDeclG) (marker : String) : Bool :=
  gds.all fun g => !groupMatches marker g || g.specs.all specCommentsOK

/-- Specification-side value extracted from one constant spec of a matched
group: nothing for unnamed specs and the limit constant, otherwise the last
leading comment line with the name marker prefix stripped. -/
def specEnumValueOf : SpecG → List String
  | .valueSpec names comments _ =>
    if names.isEmpty then []
    else if names.headD "" == "limit" then []
    else [goTrimPrefix ((comments.getLast?).getD "") "// name:"]
  | _ => []

/-- Specification-side recomputation of the allowed-value list of a type. -/
def specEnumValues (gds : List GenDeclG) (typeName : String) : List String :=
  (gds.filter (groupMatches ("name:" ++ afterLastDot typeName))).flatMap
    fun g => g.specs.flatMap specEnumValueOf

/-- Demo scenario for enum discovery: a constant group for type Key with the
name marker, three documented constants and one limit constant. -/
def origC4 : List GenDeclG :=
  [⟨.constTok, ["// name:Key"],
    [.valueSpec ["DNS"] ["// name:dns"] [],
     .valueSpec ["HTTP"] ["// name:http"] [],
     .valueSpec ["Headless"] ["// name:headless"] [],
     .valueSpec ["limit"] ["// x"] []]⟩]

/-- A state that already discovered the Key type, isolating the enum demo
from structural discovery. -/
def stC4 : DState := ⟨["Key"], [], []⟩

/-- Demo scenario for the enum panic: a marker-matched constant group whose
constant spec carries no leading comment lines. -/
def badEnumNode : List GenDeclG :=
  [⟨.constTok, ["// name:Key"], [.valueSpec ["DNS"] [] []]⟩]

/-- Demo scenario for embedding: the TypeSpec of InternalOptions with one
documented, tagged field. -/
def specInternalOpts : SpecG :=
  .typeSpec ["// IO"] "InternalOptions"
    (some (.structBody
      [⟨["BulkSize"], some [("yaml", "bulk-size")], .ident "int" "" false, ["// b"]⟩]))

/-- Demo scenario for embedding: the package declaring InternalOptions. -/
def pkgC2 : PackageG := ⟨[[⟨.typeTok, ["// IO"], [specInternalOpts]⟩]], []⟩

/-- Demo scenario for embedding: options while collecting the Job parent. -/
def optsC2 : OptsG := ⟨pkgC2, "Job", ""⟩

/-- Demo scenario for the tag skip: a documented field whose yaml tag has an
empty primary key but carries an option after the comma. -/
def fC9 : FieldNode := ⟨["Name"], some [("yaml", ",omitempty")], .interfaceT, ["// d"]⟩

/-- A state extends itself. -/
theorem extD_refl (st : DState) : ExtD st st := ⟨[], by simp⟩

/-- Logging does not touch the set or the trace. -/
theorem extD_log (e : LogE) (st : DState) : ExtD st (dsLog e st) := ⟨[], by simp [dsLog]⟩

/-- A guarded insertion is a valid extension. -/
theorem extD_insert {n : String} {st : DState} (h : n ∉ st.uniqueStructures) :
    ExtD st (dsInsert n st) := ⟨[n], by simp [dsInsert, h]⟩

/-- Extensions compose. -/
theorem extD_trans {s t u : DState} (h1 : ExtD s t) (h2 : ExtD t u) : ExtD s u := by
  obtain ⟨d1, hs1, ht1, hn1, hf1⟩ := h1
  obtain ⟨d2, hs2, ht2, hn2, hf2⟩ := h2
  refine ⟨d1 ++ d2, ?_, ?_, ?_, ?_⟩
  · rw [hs2, hs1, List.append_assoc]
  · rw [ht2, ht1, List.append_assoc]
  · refine List.nodup_append.2 ⟨hn1, hn2, ?_⟩
    intro x hx1 hx2
    exact hf2 x hx2 (by rw [hs1]; exact List.mem_append.2 (Or.inr hx1))
  · intro x hx
    rcases List.mem_append.1 hx with hx | hx
    · exact hf1 x hx
    · intro hxs
      exact hf2 x hx (by rw [hs1]; exact List.mem_append.2 (Or.inl hxs))

/-- Shorthand used when a branch returns the state unchanged. -/
theorem extD_of_eq {st st' : DState} (h : st = st') : ExtD st st' := h ▸ extD_refl st

/-- Master invariant of the collection pass: every function of the mutual
cluster, when it returns normally, extends the state by a duplicate-free
block of fresh names (ExtD). -/
theorem extAll : ∀ fuel : Nat,
    (∀ env opts st a b st',
      collectStructsWithOpts fuel env opts st = some (a, b, st') → ExtD st st') ∧
    (∀ env files opts mA eA st a b st',
      withOptsLoop fuel env files opts mA eA st = some (a, b, st') → ExtD st st') ∧
    (∀ env file opts st a b st',
      collectStructsFromDSTNode fuel env file opts st = some (a, b, st') → ExtD st st') ∧
    (∀ env prs file opts mA eA st a b st',
      fromNodeLoop fuel env prs file opts mA eA st = some (a, b, st') → ExtD st st') ∧
    (∀ env nc orig sp opts st a b st',
      parseStructuresFromDSTSpec fuel env nc orig sp opts st = some (a, b, st') → ExtD st st') ∧
    (∀ env fl orig pfx opts st a b st',
      collectFields fuel env fl orig pfx opts st = some (a, b, st') → ExtD st st') ∧
    (∀ env fl aF aS orig pfx opts st a b st',
      collectFieldsLoop fuel env fl aF aS orig pfx opts st = some (a, b, st') → ExtD st st') ∧
    (∀ env ty opts st a st',
      collectUnresolvedExternalStructs fuel env ty opts st = some (a, st') → ExtD st st')
  | 0 => by
    refine ⟨?_, ?_, ?_, ?_, ?_, ?_, ?_, ?_⟩ <;> intros <;>
      simp_all [collectStructsWithOpts, withOptsLoop, collectStructsFromDSTNode,
        fromNodeLoop, parseStructuresFromDSTSpec, collectFields, collectFieldsLoop,
        collectUnresolvedExternalStructs]
  | Nat.succ n => by
    obtain ⟨ih1, ih2, ih3, ih4, ih5, ih6, ih7, ih8⟩ := extAll n
    refine ⟨?_, ?_, ?_, ?_, ?_, ?_, ?_, ?_⟩
    · intro env opts st a b st' h
      simp only [collectStructsWithOpts] at h
      exact ih2 _ _ _ _ _ _ _ _ _ h
    · intro env files opts mA eA st a b st' h
      cases files with
      | nil =>
        simp only [withOptsLoop, Option.some.injEq, Prod.mk.injEq] at h
        obtain ⟨-, -, rfl⟩ := h
        exact extD_refl _
      | cons file rest =>
        simp only [withOptsLoop] at h
        cases hc : collectStructsFromDSTNode n env file opts st with
        | none => simp only [hc] at h; simp at h
        | some val =>
          obtain ⟨parsed, extra, st1⟩ := val
          simp only [hc] at h
          have hx : ExtD st st1 := ih3 _ _ _ _ _ _ _ hc
          cases parsed with
          | none => exact extD_trans hx (ih2 _ _ _ _ _ _ _ _ _ h)
          | some p =>
            cases mA with
            | none => exact extD_trans hx (ih2 _ _ _ _ _ _ _ _ _ h)
            | some m => exact extD_trans hx (ih2 _ _ _ _ _ _ _ _ _ h)
    · intro env file opts st a b st' h
      simp only [collectStructsFromDSTNode] at h
      exact ih4 _ _ _ _ _ _ _ _ _ _ h
    · intro env prs file opts mA eA st a b st' h
      cases prs with
      | nil =>
        simp only [fromNodeLoop, Option.some.injEq, Prod.mk.injEq] at h
        obtain ⟨-, -, rfl⟩ := h
        exact extD_refl _
      | cons pr rest =>
        obtain ⟨nc, sp⟩ := pr
        simp only [fromNodeLoop] at h
        cases hc : parseStructuresFromDSTSpec n env nc file sp opts st with
        | none => simp only [hc] at h; simp at h
        | some val =>
          obtain ⟨parsed, extra, st1⟩ := val
          simp only [hc] at h
          have hx : ExtD st st1 := ih5 _ _ _ _ _ _ _ _ _ hc
          cases parsed with
          | none => exact extD_trans hx (ih4 _ _ _ _ _ _ _ _ _ _ h)
          | some p =>
            cases mA with
            | none => exact extD_trans hx (ih4 _ _ _ _ _ _ _ _ _ _ h)
            | some m => exact extD_trans hx (ih4 _ _ _ _ _ _ _ _ _ _ h)
    · intro env nc orig sp opts st a b st' h
      cases sp with
      | valueSpec names cs vals =>
        simp only [parseStructuresFromDSTSpec, Option.some.injEq, Prod.mk.injEq] at h
        obtain ⟨-, -, rfl⟩ := h
        exact extD_refl _
      | otherSpec =>
        simp only [parseStructuresFromDSTSpec, Option.some.injEq, Prod.mk.injEq] at h
        obtain ⟨-, -, rfl⟩ := h
        exact extD_refl _
      | typeSpec cs name body =>
        cases body with
        | none =>
          simp only [parseStructuresFromDSTSpec, Option.some.injEq, Prod.mk.injEq] at h
          obtain ⟨-, -, rfl⟩ := h
          exact extD_refl _
        | some tb =>
          cases tb with
          | otherBody =>
            simp only [parseStructuresFromDSTSpec, Option.some.injEq, Prod.mk.injEq] at h
            obtain ⟨-, -, rfl⟩ := h
            exact extD_refl _
          | structBody fieldsL =>
            simp only [parseStructuresFromDSTSpec] at h
            by_cases hf : goEqualFold opts.structName name
            · rw [if_neg (by simp [hf])] at h
              cases hup : goIsUpperFirst name with
              | none => simp only [hup] at h; simp at h
              | some u =>
                simp only [hup] at h
                cases u with
                | false =>
                  simp only [Option.some.injEq, Prod.mk.injEq] at h
                  obtain ⟨-, -, rfl⟩ := h
                  exact extD_refl _
                | true =>
                  cases hreq : (if name == "Request" || goHasSuffix name ".Request" then
                      collectRequestPartDefinitions orig else some []) with
                  | none => simp only [hreq] at h; simp at h
                  | some partDefs =>
                    simp only [hreq] at h
                    cases hcf : collectFields n env fieldsL orig opts.packagePrefix opts st with
                    | none => simp only [hcf] at h; simp at h
                    | some val =>
                      obtain ⟨fields, structures, st1⟩ := val
                      simp only [hcf] at h
                      simp only [Option.some.injEq, Prod.mk.injEq] at h
                      obtain ⟨-, -, rfl⟩ := h
                      exact ih6 _ _ _ _ _ _ _ _ _ hcf
            · rw [if_pos (by simp [hf])] at h
              simp only [Option.some.injEq, Prod.mk.injEq] at h
              obtain ⟨-, -, rfl⟩ := h
              exact extD_refl _
    · intro env fl orig pfx opts st a b st' h
      simp only [collectFields] at h
      exact ih7 _ _ _ _ _ _ _ _ _ _ _ h
    · intro env fl aF aS orig pfx opts st a b st' h
      cases fl with
      | nil =>
        simp only [collectFieldsLoop, Option.some.injEq, Prod.mk.injEq] at h
        obtain ⟨-, -, rfl⟩ := h
        exact extD_refl _
      | cons f rest =>
        simp only [collectFieldsLoop] at h
        cases htag : f.tag with
        | none => simp only [htag] at h; exact ih7 _ _ _ _ _ _ _ _ _ _ _ h
        | some tagA =>
          simp only [htag] at h
          by_cases hlen : f.names.length < 1
          · rw [if_pos hlen] at h
            exact ih7 _ _ _ _ _ _ _ _ _ _ _ h
          · rw [if_neg hlen] at h
            split at h
            · -- classifier returned none: skip, possibly with the missing-doc log
              split at h
              · exact extD_trans (extD_log _ _) (ih7 _ _ _ _ _ _ _ _ _ _ _ h)
              · exact ih7 _ _ _ _ _ _ _ _ _ _ _ h
            · -- classifier panicked inside enum collection
              simp at h
            · -- classifier returned a tag and enum fields
              split at h
              · exact ih7 _ _ _ _ _ _ _ _ _ _ _ h
              · split at h
                · -- embedded branch (unreachable in executions, still covered)
                  split at h
                  · split at h
                    · split at h
                      · simp only [Option.some.injEq, Prod.mk.injEq] at h
                        obtain ⟨-, -, rfl⟩ := h
                        exact extD_log _ _
                      · split at h
                        · simp at h
                        · split at h
                          · simp at h
                          · exact extD_trans (ih1 _ _ _ _ _ _ (by assumption))
                              (ih7 _ _ _ _ _ _ _ _ _ _ _ h)
                    · split at h
                      · split at h
                        · simp at h
                        · split at h
                          · simp at h
                          · split at h
                            · simp at h
                            · exact extD_trans (ih5 _ _ _ _ _ _ _ _ _ (by assumption))
                                (ih7 _ _ _ _ _ _ _ _ _ _ _ h)
                      · simp at h
                  · exact ih7 _ _ _ _ _ _ _ _ _ _ _ h
                · -- visible field
                  split at h
                  · simp at h
                  · exact ih7 _ _ _ _ _ _ _ _ _ _ _ h
                  · split at h
                    · simp at h
                    · exact extD_trans (ih8 _ _ _ _ _ _ (by assumption))
                        (ih7 _ _ _ _ _ _ _ _ _ _ _ h)
    · intro env ty opts st a st' h
      cases ty with
      | mapT k v =>
        simp only [collectUnresolvedExternalStructs] at h
        cases hk : collectUnresolvedExternalStructs n env k opts st with
        | none => simp only [hk] at h; simp at h
        | some val =>
          obtain ⟨r1, st1⟩ := val
          simp only [hk] at h
          cases hv : collectUnresolvedExternalStructs n env v opts st1 with
          | none => simp only [hv] at h; simp at h
          | some val2 =>
            obtain ⟨r2, st2⟩ := val2
            simp only [hv] at h
            simp only [Option.some.injEq, Prod.mk.injEq] at h
            obtain ⟨-, rfl⟩ := h
            exact extD_trans (ih8 _ _ _ _ _ _ hk) (ih8 _ _ _ _ _ _ hv)
      | ident nm p obj =>
        simp only [collectUnresolvedExternalStructs] at h
        cases obj with
        | true =>
          simp only [if_true] at h
          cases hls : lookupTypeSpec opts.pkg nm with
          | none => simp only [hls] at h; simp at h
          | some sp =>
            simp only [hls] at h
            by_cases hmem :
                (if opts.packagePrefix ≠ "" then wrapStructName opts.packagePrefix nm
                  else nm) ∈ st.uniqueStructures
            · rw [if_pos hmem] at h
              simp only [Option.some.injEq, Prod.mk.injEq] at h
              obtain ⟨-, rfl⟩ := h
              exact extD_refl _
            · rw [if_neg hmem] at h
              cases hps : parseStructuresFromDSTSpec n env (specStartComments sp) [] sp
                  ⟨opts.pkg, nm, opts.packagePrefix⟩
                  (dsInsert (if opts.packagePrefix ≠ "" then
                    wrapStructName opts.packagePrefix nm else nm) st) with
              | none => simp only [hps] at h; simp at h
              | some val =>
                obtain ⟨mainO, extra, st1⟩ := val
                simp only [hps] at h
                simp only [Option.some.injEq, Prod.mk.injEq] at h
                obtain ⟨-, rfl⟩ := h
                exact extD_trans (extD_insert hmem) (ih5 _ _ _ _ _ _ _ _ _ hps)
        | false =>
          simp only [Bool.false_eq_true, if_false] at h
          by_cases hp : p ≠ ""
          · rw [if_pos hp] at h
            by_cases hm1 : wrapStructName (goPathBase p) nm ∈ st.uniqueStructures
            · rw [if_pos hm1] at h
              simp only [Option.some.injEq, Prod.mk.injEq] at h
              obtain ⟨-, rfl⟩ := h
              exact extD_refl _
            · rw [if_neg hm1] at h
              by_cases hm2 : identString nm p ∈
                  (dsInsert (wrapStructName (goPathBase p) nm) st).uniqueStructures
              · rw [if_pos hm2] at h
                simp only [Option.some.injEq, Prod.mk.injEq] at h
                obtain ⟨-, rfl⟩ := h
                exact extD_insert hm1
              · rw [if_neg hm2] at h
                cases hpi : pkgImport env opts.pkg p with
                | none =>
                  simp only [hpi] at h
                  simp only [Option.some.injEq, Prod.mk.injEq] at h
                  obtain ⟨-, rfl⟩ := h
                  exact extD_trans (extD_insert hm1)
                    (extD_trans (extD_insert hm2) (extD_log _ _))
                | some spkg =>
                  simp only [hpi] at h
                  cases hws : collectStructsWithOpts n env ⟨spkg, nm, goPathBase p⟩
                      (dsInsert (identString nm p)
                        (dsInsert (wrapStructName (goPathBase p) nm) st)) with
                  | none => simp only [hws] at h; simp at h
                  | some val =>
                    obtain ⟨mainO, extra, st1⟩ := val
                    simp only [hws] at h
                    simp only [Option.some.injEq, Prod.mk.injEq] at h
                    obtain ⟨-, rfl⟩ := h
                    exact extD_trans (extD_insert hm1)
                      (extD_trans (extD_insert hm2) (ih1 _ _ _ _ _ _ hws))
          · rw [if_neg hp] at h
            by_cases hm : nm ∈ st.uniqueStructures
            · rw [if_pos hm] at h
              simp only [Option.some.injEq, Prod.mk.injEq] at h
              obtain ⟨-, rfl⟩ := h
              exact extD_refl _
            · rw [if_neg hm] at h
              cases hws : collectStructsWithOpts n env ⟨opts.pkg, nm, ""⟩ (dsInsert nm st) with
              | none => simp only [hws] at h; simp at h
              | some val =>
                obtain ⟨mainO, extra, st1⟩ := val
                simp only [hws] at h
                simp only [Option.some.injEq, Prod.mk.injEq] at h
                obtain ⟨-, rfl⟩ := h
                exact extD_trans (extD_insert hm) (ih1 _ _ _ _ _ _ hws)
      | arrayT elt =>
        simp only [collectUnresolvedExternalStructs] at h
        exact ih8 _ _ _ _ _ _ h
      | structT =>
        simp only [collectUnresolvedExternalStructs, Option.some.injEq, Prod.mk.injEq] at h
        obtain ⟨-, rfl⟩ := h
        exact extD_refl _
      | starT x =>
        simp only [collectUnresolvedExternalStructs] at h
        exact ih8 _ _ _ _ _ _ h
      | selectorT sel =>
        simp only [collectUnresolvedExternalStructs] at h
        exact ih8 _ _ _ _ _ _ h
      | interfaceT =>
        simp only [collectUnresolvedExternalStructs, Option.some.injEq, Prod.mk.injEq] at h
        obtain ⟨-, rfl⟩ := h
        exact extD_refl _
      | otherT =>
        simp only [collectUnresolvedExternalStructs, Option.some.injEq, Prod.mk.injEq] at h
        obtain ⟨-, rfl⟩ := h
        exact extD_refl _

/-- The collection half of process also satisfies the state extension
invariant. -/
theorem processCollect_extD : ∀ (pkgs : List PackageG) (fuel : Nat) (env : EnvG)
    (nm : String) (st : DState) (l : List StructS) (st' : DState),
    processCollect fuel env pkgs nm st = some (l, st') → ExtD st st'
  | [], _, _, _, _, _, _ => by
    intro h
    simp only [processCollect, Option.some.injEq, Prod.mk.injEq] at h
    obtain ⟨-, rfl⟩ := h
    exact extD_refl _
  | pkg :: rest, fuel, env, nm, st, l, st' => by
    intro h
    simp only [processCollect] at h
    cases hc : collectStructsWithOpts fuel env ⟨pkg, nm, ""⟩ st with
    | none => simp only [hc] at h; simp at h
    | some val =>
      obtain ⟨mainO, extra, st1⟩ := val
      simp only [hc] at h
      cases hp : processCollect fuel env rest nm st1 with
      | none => simp only [hp] at h; simp at h
      | some val2 =>
        obtain ⟨l2, st2⟩ := val2
        simp only [hp] at h
        simp only [Option.some.injEq, Prod.mk.injEq] at h
        obtain ⟨-, rfl⟩ := h
        exact extD_trans ((extAll fuel).1 _ _ _ _ _ _ hc)
          (processCollect_extD rest fuel env nm st1 l2 st2 hp)

/-- C1 (amended): within any completed collection pass, the dedup-guarded
discovery enqueues each qualified name at most once per process lifetime: the
block of names inserted into uniqueStructures during the pass is duplicate
free and disjoint from the names already in the set when the pass started.
This is the termination and work-deduplication guarantee; the no-duplicates
property of the collected entry set itself is refuted separately. -/
theorem processCollect_enqueue_once (fuel : Nat) (env : EnvG) (pkgs : List PackageG)
    (nm : String) (st : DState) (l : List StructS) (st' : DState)
    (h : processCollect fuel env pkgs nm st = some (l, st')) :
    ∃ d, st'.trace = st.trace ++ d ∧ d.Nodup ∧ ∀ n ∈ d, n ∉ st.uniqueStructures := by
  obtain ⟨d, -, ht, hn, hf⟩ := processCollect_extD pkgs fuel env nm st l st' h
  exact ⟨d, ht, hn, hf⟩

/-- C1 witness: the enqueue-once guarantee instantiated on the cyclic
Config/Sub demo package. -/
theorem processCollect_enqueue_once_witness :
    ∃ d, demoRun.2.trace = st0.trace ++ d ∧ d.Nodup ∧
      ∀ n ∈ d, n ∉ st0.uniqueStructures :=
  processCollect_enqueue_once 40 envDemo [pkgDemo] "Config" st0 demoRun.1 demoRun.2
    (by rfl)

/-- C1 counterexample: on the cyclic Config/Sub package the collected set
contains two entries with the qualified name Config (the root is collected
outside the dedup set, so the cycle back to the root collects it again),
refuting the no-duplicate invariant of the resolved set. -/
theorem processCollect_dedup_counterexample :
    (processCollect 40 envDemo [pkgDemo] "Config" st0).map (fun p => p.1.map getNameS) =
      some ["Config", "Sub", "Config"] ∧
    ¬ (["Config", "Sub", "Config"] : List String).Nodup := by
  exact ⟨by decide, by decide⟩

/-- C7 (amended): the uniqueStructures set is process wide and never reset, so
a name that is already in the set when an invocation starts is never enqueued
again by that invocation: if it occurs in the final trace it was already in
the initial trace. A second in-process invocation therefore skips everything
the first one discovered instead of behaving like a fresh run. -/
theorem processCollect_no_reenqueue (fuel : Nat) (env : EnvG) (pkgs : List PackageG)
    (nm : String) (st : DState) (l : List StructS) (st' : DState) (n : String)
    (h : processCollect fuel env pkgs nm st = some (l, st'))
    (hn : n ∈ st.uniqueStructures) (ht : n ∈ st'.trace) : n ∈ st.trace := by
  obtain ⟨d, -, htr, -, hf⟩ := processCollect_extD pkgs fuel env nm st l st' h
  rw [htr] at ht
  rcases List.mem_append.1 ht with hx | hx
  · exact hx
  · exact absurd hn (hf n hx)

/-- C7 witness: the no-re-enqueue guarantee instantiated on the second run of
the Config/Sub demo. -/
theorem processCollect_no_reenqueue_witness :
    "Sub" ∈ demoRun.2.uniqueStructures ∧ "Sub" ∈ demoRun.2.trace :=
  ⟨by decide,
    processCollect_no_reenqueue 40 envDemo [pkgDemo] "Config" demoRun.2 demoRun2.1
      demoRun2.2 "Sub" (by rfl) (by decide) (by decide)⟩

/-- C7 counterexample: running the pass twice in one process is observably
different from a fresh run: the second invocation collects only the root,
while a fresh invocation collects the root, Sub, and the duplicate root. -/
theorem processCollect_not_reentrant_counterexample :
    ((processCollect 40 envDemo [pkgDemo] "Config" st0).bind fun p =>
        processCollect 40 envDemo [pkgDemo] "Config" p.2).map (fun p => p.1.map getNameS) =
      some ["Config"] ∧
    (processCollect 40 envDemo [pkgDemo] "Config" st0).map (fun p => p.1.map getNameS) =
      some ["Config", "Sub", "Config"] ∧
    some ["Config"] ≠ some ["Config", "Sub", "Config"] := by
  exact ⟨by decide, by decide, by decide⟩

/-- C3 counterexample: structural discovery on a map type with a struct-typed
key resolves the key type: the KeyT struct is collected from the key position
of map[KeyT]string, so map keys are traversed for structural resolution,
refuting the claim that they never are. -/
theorem mapKey_traversed_counterexample :
    (collectUnresolvedExternalStructs 30 envDemo
        (.mapT (.ident "KeyT" "" true) (.ident "string" "" false)) optsC3 st0).map
        (fun p => p.1.map getNameS) = some ["KeyT"] ∧
    some ["KeyT"] ≠ some ([] : List String) := by
  exact ⟨by decide, by decide⟩

/-- C3 (amended): for a map field type, the type reference (getFieldType)
follows only the value type, the rendered signature (formatFieldType) shows
both the key and the value, and structural discovery
(collectUnresolvedExternalStructs) traverses the key first and then the
value. -/
theorem mapType_resolution (pfx : String) (apply : Bool) (k v : TypeExprG) :
    getFieldType (.mapT k v) pfx apply = getFieldType v pfx false ∧
    formatFieldType (.mapT k v) pfx apply =
      "map[" ++ formatFieldType k pfx false ++ "]" ++ formatFieldType v pfx false ∧
    ∀ fuel env opts st,
      collectUnresolvedExternalStructs (fuel + 1) env (.mapT k v) opts st =
        (collectUnresolvedExternalStructs fuel env k opts st).bind fun p =>
          (collectUnresolvedExternalStructs fuel env v opts p.2).map fun q =>
            (p.1 ++ q.1, q.2) := by
  refine ⟨rfl, rfl, ?_⟩
  intro fuel env opts st
  simp only [collectUnresolvedExternalStructs]
  rcases hk : collectUnresolvedExternalStructs fuel env k opts st with _ | ⟨r1, st1⟩
  · simp [hk]
  · rcases hv : collectUnresolvedExternalStructs fuel env v opts st1 with _ | ⟨r2, st2⟩ <;>
      simp [hk, hv]

/-- C8: an otherwise includable field (tagged, named, non-mapping, with a
primary yaml key that does not trigger the tag skip) whose leading
documentation is empty is omitted entirely: exactly one missing-documentation
diagnostic is logged and the loop continues on the remaining fields with
accumulators unchanged. -/
theorem missingDoc_skips_field (fuel : Nat) (env : EnvG) (f : FieldNode)
    (rest : List FieldNode) (accF : List FieldG) (accS : List StructS)
    (orig : List GenDeclG) (pfx : String) (opts : OptsG) (st : DState)
    (tagA : List (String × String)) (nm : String) (nms : List String)
    (htag : f.tag = some tagA) (hnames : f.names = nm :: nms)
    (hmap : tagGet tagA "mapping" = "")
    (hskip : ¬ ((((goSplitComma (tagGet tagA "yaml")).headD "" == "" ||
      (goSplitComma (tagGet tagA "yaml")).headD "" == "-")) ∧
      goCountChar (tagGet tagA "yaml") ',' < 1))
    (hdoc : uncommentDecorationNode f.comments = "") :
    collectFieldsLoop (fuel + 1) env (f :: rest) accF accS orig pfx opts st =
      collectFieldsLoop fuel env rest accF accS orig pfx opts
        (dsLog (.missingDoc f.ftype) st) := by
  simp only [collectFieldsLoop, htag, hnames, hmap, hdoc, List.length_cons]
  rw [if_neg (by omega), if_neg hskip]
  simp only [List.headD_eq_head?] at hskip
  simp [hskip]
  intro h1 h2
  refine absurd ⟨?_, by omega⟩ hskip
  rcases h1 with h | h <;> simp [h]

/-- Lookup through a Go map-of-slice append. -/
theorem lookupM_mapAppend {α : Type} (m : List (String × List α)) (k : String)
    (xs : List α) (k' : String) :
    lookupM k' (mapAppend m k xs) =
      if k' = k then some (((lookupM k m).getD []) ++ xs) else lookupM k' m := by
  induction m with
  | nil =>
    by_cases h : k' = k
    · subst h; simp [mapAppend, lookupM, beq_self_eq_true]
    · have hs : ¬ k = k' := fun hh => h hh.symm
      simp [mapAppend, lookupM, h, hs, beq_iff_eq]
  | cons p rest ih =>
    obtain ⟨k1, ys⟩ := p
    by_cases h1 : k1 = k
    · subst h1
      by_cases h2 : k' = k1
      · subst h2; simp [mapAppend, lookupM, beq_self_eq_true]
      · have h2s : ¬ k1 = k' := fun hh => h2 hh.symm
        simp [mapAppend, lookupM, h2, h2s, beq_iff_eq, beq_self_eq_true]
    · have h1s : ¬ k = k1 := fun hh => h1 hh.symm
      by_cases h2 : k' = k1
      · subst h2
        simp [mapAppend, lookupM, h1, h1s, beq_iff_eq, beq_self_eq_true]
      · have h2s : ¬ k1 = k' := fun hh => h2 hh.symm
        simp [mapAppend, lookupM, h1, h1s, h2, h2s, beq_iff_eq, ih]

/-- Lookup characterization of the inner synthesis field loop: relative to
the accumulator, the maps gain exactly the per-field contributions of the
fields whose non-empty type reference equals the key. -/
theorem synthFields_lookup (s : StructS) :
    ∀ (fields : List FieldG)
      (acc : List (String × List ExampleG) × List (String × List AppearanceO))
      (k : String),
    (lookupM k (synthFields s fields acc).1).getD [] =
      ((lookupM k acc.1).getD []) ++
        ((fields.filter fun f => f.typeRef == k && !(f.typeRef == "")).flatMap
          fun f => f.text.examples) ∧
    (lookupM k (synthFields s fields acc).2).getD [] =
      ((lookupM k acc.2).getD []) ++
        ((fields.filter fun f => f.typeRef == k && !(f.typeRef == "")).map
          fun f => (⟨getNameS s, f.tag⟩ : AppearanceO))
  | [], acc, k => by simp [synthFields]
  | f :: rest, acc, k => by
    by_cases h0 : f.typeRef = ""
    · have hstep : synthFields s (f :: rest) acc = synthFields s rest acc := by
        simp [synthFields, h0]
      have hfil : (f.typeRef == k && !(f.typeRef == "")) = false := by simp [h0]
      rw [hstep]
      obtain ⟨ih1, ih2⟩ := synthFields_lookup s rest acc k
      constructor <;> simp [List.filter_cons, hfil, ih1, ih2]
    · have hstep : synthFields s (f :: rest) acc = synthFields s rest
          ((if f.text.examples.length > 0 then mapAppend acc.1 f.typeRef f.text.examples
            else acc.1),
           mapAppend acc.2 f.typeRef [⟨getNameS s, f.tag⟩]) := by
        simp [synthFields, h0]
      rw [hstep]
      obtain ⟨ih1, ih2⟩ := synthFields_lookup s rest
        ((if f.text.examples.length > 0 then mapAppend acc.1 f.typeRef f.text.examples
          else acc.1),
         mapAppend acc.2 f.typeRef [⟨getNameS s, f.tag⟩]) k
      by_cases hk : f.typeRef = k
      · subst hk
        have hfil : (f.typeRef == f.typeRef && !(f.typeRef == "")) = true := by simp [h0]
        constructor
        · rw [ih1]
          have hee : (lookupM f.typeRef
              (if f.text.examples.length > 0 then mapAppend acc.1 f.typeRef f.text.examples
                else acc.1)).getD [] =
              (lookupM f.typeRef acc.1).getD [] ++ f.text.examples := by
            by_cases hlen : f.text.examples.length > 0
            · simp [hlen, lookupM_mapAppend]
            · have hnil : f.text.examples = [] := by
                cases hx : f.text.examples with
                | nil => rfl
                | cons a l => rw [hx] at hlen; simp at hlen
              simp [hlen, hnil]
          rw [hee]
          simp [List.filter_cons, hfil, h0, List.append_assoc]
        · rw [ih2]
          have hbr : (lookupM f.typeRef
              (mapAppend acc.2 f.typeRef [⟨getNameS s, f.tag⟩])).getD [] =
              (lookupM f.typeRef acc.2).getD [] ++ [(⟨getNameS s, f.tag⟩ : AppearanceO)] := by
            simp [lookupM_mapAppend]
          rw [hbr]
          simp [List.filter_cons, hfil, h0, List.append_assoc]
      · have hfil : (f.typeRef == k && !(f.typeRef == "")) = false := by
          simp [fun hh => hk hh]
        have hne : ¬ k = f.typeRef := fun hh => hk hh.symm
        constructor
        · rw [ih1]
          have hee : lookupM k
              (if f.text.examples.length > 0 then mapAppend acc.1 f.typeRef f.text.examples
                else acc.1) = lookupM k acc.1 := by
            by_cases hlen : f.text.examples.length > 0 <;>
              simp [hlen, lookupM_mapAppend, hne]
          rw [hee]
          simp [List.filter_cons, hfil, h0, hk]
        · rw [ih2]
          have hbr : lookupM k (mapAppend acc.2 f.typeRef [⟨getNameS s, f.tag⟩]) =
              lookupM k acc.2 := by
            simp [lookupM_mapAppend, hne]
          rw [hbr]
          simp [List.filter_cons, hfil, h0, hk]

/-- Lookup characterization of the outer synthesis struct loop. -/
theorem synthStructs_lookup :
    ∀ (structures : List StructS)
      (acc : List (String × List ExampleG) × List (String × List AppearanceO))
      (k : String),
    (lookupM k (synthStructs structures acc).1).getD [] =
      ((lookupM k acc.1).getD []) ++ specExtraExamples structures k ∧
    (lookupM k (synthStructs structures acc).2).getD [] =
      ((lookupM k acc.2).getD []) ++ specAppearances structures k
  | [], acc, k => by simp [synthStructs, specExtraExamples, specAppearances]
  | s :: rest, acc, k => by
    obtain ⟨ih1, ih2⟩ := synthStructs_lookup rest (synthFields s s.fields acc) k
    obtain ⟨hf1, hf2⟩ := synthFields_lookup s s.fields acc k
    have hstep : synthStructs (s :: rest) acc =
        synthStructs rest (synthFields s s.fields acc) := rfl
    constructor
    · rw [hstep, ih1, hf1]
      simp [specExtraExamples, List.append_assoc]
    · rw [hstep, ih2, hf2]
      simp [specAppearances, List.append_assoc]

/-- The getD-free lookup characterization of the finished synthesis maps. -/
theorem synthMaps_lookup (structures : List StructS) (k : String) :
    (lookupM k (synthMaps structures).1).getD [] = specExtraExamples structures k ∧
    (lookupM k (synthMaps structures).2).getD [] = specAppearances structures k := by
  obtain ⟨h1, h2⟩ := synthStructs_lookup structures ([], []) k
  refine ⟨?_, ?_⟩
  · rw [synthMaps, h1]; simp [lookupM]
  · rw [synthMaps, h2]; simp [lookupM]

/-- C6: Appearance bookkeeping is exact. For every key, the backReferences
content under that key is exactly one Appearance, naming the owning parent
GetName and the field tag, per field occurrence whose non-empty type
reference equals the key, in traversal order; and the extraExamples content
is exactly the concatenation of the examples of those same fields. Fields
with an empty type reference contribute to neither map. -/
theorem backReferences_exactly_once (structures : List StructS) (k : String) :
    (lookupM k (synthMaps structures).2).getD [] =
      (structures.flatMap fun s =>
        (s.fields.filter fun f => f.typeRef == k && !(f.typeRef == "")).map
          fun f => (⟨getNameS s, f.tag⟩ : AppearanceO)) ∧
    (lookupM k (synthMaps structures).1).getD [] =
      (structures.flatMap fun s =>
        (s.fields.filter fun f => f.typeRef == k && !(f.typeRef == "")).flatMap
          fun f => f.text.examples) :=
  ⟨by rw [(synthMaps_lookup structures k).2]; rfl,
   by rw [(synthMaps_lookup structures k).1]; rfl⟩

/-- C5 (amended): synthesis propagates examples from referencing fields to
the referenced type, not the other way round. The synthesized output keeps
every field list unchanged; each struct gains, at type level, the examples of
every field in the set that references it, and its appearance list. A field
never receives examples from the type it references. -/
theorem processSynthesize_characterization (structures : List StructS) :
    processSynthesize structures = structures.map fun s =>
      ⟨s.name, s.packagePrefix,
        ⟨s.text.comment, s.text.description,
          s.text.examples ++ specExtraExamples structures (getNameS s), s.text.values⟩,
        s.fields, s.requestPartValues, specAppearances structures (getNameS s)⟩ := by
  simp only [processSynthesize]
  congr 1
  funext s
  obtain ⟨h1, h2⟩ := synthMaps_lookup structures (getNameS s)
  cases hx : lookupM (getNameS s) (synthMaps structures).1 with
  | none =>
    have e1 : specExtraExamples structures (getNameS s) = [] := by rw [← h1, hx]; rfl
    cases hy : lookupM (getNameS s) (synthMaps structures).2 with
    | none =>
      have e2 : specAppearances structures (getNameS s) = [] := by rw [← h2, hy]; rfl
      simp [hx, hy, e1, e2]
    | some ref =>
      have e2 : specAppearances structures (getNameS s) = ref := by rw [← h2, hy]; rfl
      simp [hx, hy, e1, e2]
  | some extra =>
    have e1 : specExtraExamples structures (getNameS s) = extra := by rw [← h1, hx]; rfl
    cases hy : lookupM (getNameS s) (synthMaps structures).2 with
    | none =>
      have e2 : specAppearances structures (getNameS s) = [] := by rw [← h2, hy]; rfl
      simp [hx, hy, e1, e2]
    | some ref =>
      have e2 : specAppearances structures (getNameS s) = ref := by rw [← h2, hy]; rfl
      simp [hx, hy, e1, e2]

/-- C5 counterexample: after synthesis the internalOptions field of Job still
carries only its own declared example and not the example of the referenced
InternalOptions type; instead InternalOptions, the referenced type, gains the
field example. The propagation direction of the claim is reversed. -/
theorem example_propagation_direction_counterexample :
    ((processSynthesize [jobS, ioS]).map fun s => s.fields.map fun f => f.text.examples) =
      [[[⟨"IO Example", "exampleInternalOptions"⟩]], []] ∧
    ¬ (⟨"BulkSize Example", "bulk-size: 10000"⟩ : ExampleG) ∈
        [(⟨"IO Example", "exampleInternalOptions"⟩ : ExampleG)] ∧
    ((processSynthesize [jobS, ioS]).map fun s => s.text.examples) =
      [[], [⟨"BulkSize Example", "bulk-size: 10000"⟩, ⟨"IO Example", "exampleInternalOptions"⟩]] ∧
    ((processSynthesize [jobS, ioS]).map fun s => s.appearsIn) =
      [[], [⟨"Job", "internal-options"⟩]] := by
  exact ⟨by decide, by decide, by decide, by decide⟩

/-- Inner characterization of the enum spec loop. -/
theorem collectEnumSpecs_ok :
    ∀ (specs : List SpecG), specs.all specCommentsOK = true →
    collectEnumSpecs specs = some (specs.flatMap specEnumValueOf)
  | [], _ => rfl
  | sp :: rest, h => by
    rw [List.all_cons, Bool.and_eq_true] at h
    obtain ⟨hsp, hrest⟩ := h
    have ih := collectEnumSpecs_ok rest hrest
    cases sp with
    | typeSpec cs nm bd => simp [collectEnumSpecs, specEnumValueOf, ih]
    | otherSpec => simp [collectEnumSpecs, specEnumValueOf, ih]
    | valueSpec names comments vals =>
      by_cases h1 : names.isEmpty
      · simp [collectEnumSpecs, specEnumValueOf, h1, ih]
      · by_cases h2 : names.head?.getD "" = "limit"
        · simp [collectEnumSpecs, specEnumValueOf, h1, h2, List.headD_eq_head?, ih]
        · have hne : comments ≠ [] := by
            simp [specCommentsOK, h1, List.headD_eq_head?] at hsp
            rcases hsp with hx | hx
            · exact absurd hx h2
            · exact hx
          cases hcl : comments.getLast? with
          | none =>
            have hx : (comments.getLast?).isSome = true := by simp [hne]
            rw [hcl] at hx
            simp at hx
          | some last =>
            simp [collectEnumSpecs, specEnumValueOf, h1, h2, List.headD_eq_head?, hcl, ih]

/-- Outer characterization of the enum group loop. -/
theorem collectEnumGroups_ok :
    ∀ (gds : List GenDeclG) (fieldName : String),
    enumCommentsOK gds fieldName = true →
    collectEnumGroups fieldName gds =
      some ((gds.filter (groupMatches fieldName)).flatMap
        fun g => g.specs.flatMap specEnumValueOf)
  | [], _, _ => rfl
  | g :: rest, fieldName, h => by
    rw [enumCommentsOK, List.all_cons, Bool.and_eq_true] at h
    obtain ⟨hg, hrest⟩ := h
    have ih := collectEnumGroups_ok rest fieldName hrest
    by_cases h1 : g.tok = TokG.constTok
    · by_cases h2 : g.comments.isEmpty
      · have hm : groupMatches fieldName g = false := by simp [groupMatches, h2]
        simp [collectEnumGroups, h1, h2, hm, List.filter_cons, ih]
      · by_cases h3 : goTrimPrefix ((g.comments.getLast?).getD "") "// " = fieldName
        · have hm : groupMatches fieldName g = true := by
            simp [groupMatches, h1, h2, h3]
          have hall : g.specs.all specCommentsOK = true := by
            rw [hm] at hg; simpa using hg
          have hs := collectEnumSpecs_ok g.specs hall
          simp [collectEnumGroups, h1, h2, h3, hm, hs, List.filter_cons, ih]
        · have hm : groupMatches fieldName g = false := by simp [groupMatches, h3]
          simp [collectEnumGroups, h1, h2, h3, hm, List.filter_cons, ih]
    · have hm : groupMatches fieldName g = false := by simp [groupMatches, h1]
      simp [collectEnumGroups, h1, hm, List.filter_cons, ih]

/-- C4 (amended): a field tagged as a mapping field with an Ident type is
included without requiring documentation, its tag being the primary yaml key
(not lower-cased) and its enum fields being the collected enum information;
and the allowed-value list of a type is computed from the last leading
comment line of each non-limit constant of the marker-matched constant
groups, stripped of the name marker prefix (not from the constant
identifiers). -/
theorem mapping_enum_discovery :
    (∀ (fuel : Nat) (env : EnvG) (rest : List FieldNode) (accF : List FieldG)
      (accS : List StructS) (orig : List GenDeclG) (pfx : String) (opts : OptsG)
      (st : DState) (tagA : List (String × String)) (nm : String) (nms : List String)
      (tn pth : String) (ob : Bool) (cs : List String) (vs : List String)
      (found : List StructS) (st' : DState),
      tagGet tagA "mapping" ≠ "" →
      uncommentDecorationNode cs = "" →
      goIsUpperFirst nm = some true →
      collectPartEnumInformation orig tn = some vs →
      collectUnresolvedExternalStructs fuel env (.ident tn pth ob) opts st =
        some (found, st') →
      collectFieldsLoop (fuel + 1) env
          (⟨nm :: nms, some tagA, .ident tn pth ob, cs⟩ :: rest) accF accS orig pfx
          opts st =
        collectFieldsLoop fuel env rest
          (accF ++ [⟨nm, (goSplitComma (tagGet tagA "yaml")).headD "",
            formatFieldType (.ident tn pth ob) pfx false,
            getFieldType (.ident tn pth ob) pfx false, env.pc "", "", vs⟩])
          (accS ++ found) orig pfx opts st') ∧
    (∀ (gds : List GenDeclG) (tn : String),
      enumCommentsOK gds ("name:" ++ afterLastDot tn) = true →
      collectPartEnumInformation gds tn = some (specEnumValues gds tn)) := by
  constructor
  · intro fuel env rest accF accS orig pfx opts st tagA nm nms tn pth ob cs vs found st'
      hm hdoc hupper henum hcu
    have hmb : (tagGet tagA "mapping" == "") = false := by simp [hm]
    have hnm : nm ≠ "" := by
      intro hh
      rw [hh] at hupper
      simp [goIsUpperFirst] at hupper
    have hnmb : (nm == "") = false := by simp [hnm]
    have hcont : goContains "" "docgen:nodoc" = false := by decide
    simp only [collectFieldsLoop, hmb, hdoc, henum, hcu, List.length_cons, hnmb, hupper,
      List.headD_eq_head?]
    rw [if_neg (by omega)]
    simp [hnmb, hupper, List.headD_eq_head?, hnm, hcont]
  · intro gds tn h
    rw [collectPartEnumInformation, collectEnumGroups_ok gds _ h]
    rfl

/-- C4 counterexample: the constants DNS, HTTP, Headless (with a limit
constant) yield the allowed-value list taken from their leading name-marker
comments, here dns, http, headless, and not the identifier list DNS, HTTP,
Headless the claim promises. -/
theorem enum_values_from_comments_counterexample :
    collectPartEnumInformation origC4 "Key" = some ["dns", "http", "headless"] ∧
    some ["dns", "http", "headless"] ≠ some ["DNS", "HTTP", "Headless"] := by
  exact ⟨by decide, by decide⟩

/-- C4 witness: the mapping-field inclusion and the enum characterization of
mapping_enum_discovery instantiated on the Key demo group. -/
theorem mapping_enum_discovery_witness :
    (collectFieldsLoop 4 envDemo
        [⟨["Part"], some [("mapping", "true"), ("yaml", "part")], .ident "Key" "" false, []⟩]
        [] [] origC4 "" optsC3 stC4 =
      collectFieldsLoop 3 envDemo []
        ([] ++ [⟨"Part",
          (goSplitComma (tagGet [("mapping", "true"), ("yaml", "part")] "yaml")).headD "",
          formatFieldType (.ident "Key" "" false) "" false,
          getFieldType (.ident "Key" "" false) "" false, envDemo.pc "", "",
          ["dns", "http", "headless"]⟩])
        ([] ++ []) origC4 "" optsC3 stC4) ∧
    collectPartEnumInformation origC4 "Key" = some (specEnumValues origC4 "Key") :=
  ⟨mapping_enum_discovery.1 3 envDemo [] [] [] origC4 "" optsC3 stC4
      [("mapping", "true"), ("yaml", "part")] "Part" [] "Key" "" false []
      ["dns", "http", "headless"] [] stC4
      (by decide) (by decide) (by decide) (by decide) (by decide),
    mapping_enum_discovery.2 origC4 "Key" (by decide)⟩

/-- C10 counterexample: on a marker-matched constant group containing a
constant without leading comments, the extraction indexes position minus one
of an empty comment list and panics, so collectPartEnumInformation is not
total. -/
theorem enum_collection_panic_counterexample :
    collectPartEnumInformation badEnumNode "Key" = none ∧
    (collectPartEnumInformation badEnumNode "Key").isSome = false := by
  exact ⟨by decide, by decide⟩

/-- C10 (amended): collectPartEnumInformation returns without panicking
provided every named non-limit constant spec inside a marker-matched constant
group carries at least one leading comment line. -/
theorem enum_total_when_commented (gds : List GenDeclG) (tn : String)
    (h : enumCommentsOK gds ("name:" ++ afterLastDot tn) = true) :
    (collectPartEnumInformation gds tn).isSome := by
  rw [collectPartEnumInformation, collectEnumGroups_ok gds _ h]
  rfl

/-- C10 witness: totality on the commented Key demo group. -/
theorem enum_total_when_commented_witness :
    enumCommentsOK origC4 ("name:" ++ afterLastDot "Key") = true ∧
    (collectPartEnumInformation origC4 "Key").isSome :=
  ⟨by decide, enum_total_when_commented origC4 "Key" (by decide)⟩

/-- C2: evaluation at the failing input. An embedded field (no names, inline
yaml tag, pointer to the locally declared InternalOptions struct, with
documentation) is dropped entirely by collectFields: no fields are spliced,
no standalone structure is collected, no diagnostic is logged and the dedup
state is untouched, although the embedded type is resolvable and documented.
The guard requiring at least one name at the top of the field loop makes the
embedded-structure handling of the function unreachable, contradicting the
documentation of collectFields. -/
theorem embedded_field_skipped_eval :
    collectFields 20 envDemo
      [⟨[], some [("yaml", ",inline")], .starT (.ident "InternalOptions" "" true),
        ["// o"]⟩]
      [] "" optsC2 st0 = some ([], [], st0) := by decide

/-- C8 witness: the missing-documentation skip instantiated on a concrete
undocumented field. -/
theorem missingDoc_skips_field_witness :
    collectFieldsLoop 5 envDemo [⟨["Name"], some [("yaml", "name")], .interfaceT, []⟩]
        [] [] [] "" optsC3 st0 =
      collectFieldsLoop 4 envDemo [] [] [] [] "" optsC3
        (dsLog (.missingDoc .interfaceT) st0) :=
  missingDoc_skips_field 4 envDemo ⟨["Name"], some [("yaml", "name")], .interfaceT, []⟩
    [] [] [] [] "" optsC3 st0 [("yaml", "name")] "Name" [] rfl rfl (by decide)
    (by decide) rfl

/-- C9 (amended): for a non-mapping field the tag skip fires only when the
primary yaml key is empty or the dash marker AND the whole yaml tag contains
no comma; when a comma is present the field survives the tag check even with
an empty or dash primary key, and (given documentation, no nodoc directive
and an exported name) it is emitted with the lower-cased primary key as its
tag. -/
theorem yamlTag_skip_characterization :
    (∀ (fuel : Nat) (env : EnvG) (f : FieldNode) (rest : List FieldNode)
      (accF : List FieldG) (accS : List StructS) (orig : List GenDeclG) (pfx : String)
      (opts : OptsG) (st : DState) (tagA : List (String × String)) (nm : String)
      (nms : List String),
      f.tag = some tagA → f.names = nm :: nms → tagGet tagA "mapping" = "" →
      ((goSplitComma (tagGet tagA "yaml")).headD "" = "" ∨
        (goSplitComma (tagGet tagA "yaml")).headD "" = "-") →
      goCountChar (tagGet tagA "yaml") ',' < 1 →
      collectFieldsLoop (fuel + 1) env (f :: rest) accF accS orig pfx opts st =
        collectFieldsLoop fuel env rest accF accS orig pfx opts st) ∧
    (∀ (fuel : Nat) (env : EnvG) (f : FieldNode) (rest : List FieldNode)
      (accF : List FieldG) (accS : List StructS) (orig : List GenDeclG) (pfx : String)
      (opts : OptsG) (st : DState) (tagA : List (String × String)) (nm : String)
      (nms : List String) (found : List StructS) (st' : DState),
      f.tag = some tagA → f.names = nm :: nms → tagGet tagA "mapping" = "" →
      1 ≤ goCountChar (tagGet tagA "yaml") ',' →
      uncommentDecorationNode f.comments ≠ "" →
      goContains (uncommentDecorationNode f.comments) "docgen:nodoc" = false →
      goIsUpperFirst nm = some true →
      collectUnresolvedExternalStructs fuel env f.ftype opts st = some (found, st') →
      collectFieldsLoop (fuel + 1) env (f :: rest) accF accS orig pfx opts st =
        collectFieldsLoop fuel env rest
          (accF ++ [⟨nm, goToLower ((goSplitComma (tagGet tagA "yaml")).headD ""),
            formatFieldType f.ftype pfx false, getFieldType f.ftype pfx false,
            env.pc (uncommentDecorationNode f.comments), "", []⟩])
          (accS ++ found) orig pfx opts st') := by
  constructor
  · intro fuel env f rest accF accS orig pfx opts st tagA nm nms htag hnames hmap
      hprim hcount
    have hb : (((goSplitComma (tagGet tagA "yaml")).headD "" == "" ||
        (goSplitComma (tagGet tagA "yaml")).headD "" == "-")) = true := by
      rcases hprim with h | h <;> rw [h] <;> simp
    simp only [collectFieldsLoop, htag, hnames, List.length_cons]
    rw [if_neg (by omega)]
    rw [if_pos (show (tagGet tagA "mapping" == "") = true by simp [hmap])]
    rw [if_pos ⟨hb, hcount⟩]
    rcases hprim with h | h <;> rw [List.headD_eq_head?] at h <;>
      simp [h, hcount]
  · intro fuel env f rest accF accS orig pfx opts st tagA nm nms found st' htag hnames
      hmap hcomma hdoc hnodoc hupper hcu
    have hskipb : ¬ ((((goSplitComma (tagGet tagA "yaml")).headD "" == "" ||
        (goSplitComma (tagGet tagA "yaml")).headD "" == "-")) = true ∧
        goCountChar (tagGet tagA "yaml") ',' < 1) := fun hh => absurd hh.2 (by omega)
    have hnm : nm ≠ "" := by
      intro hh
      rw [hh] at hupper
      simp [goIsUpperFirst] at hupper
    have hnmb : (nm == "") = false := by simp [hnm]
    simp only [collectFieldsLoop, htag, hnames, List.length_cons]
    rw [if_neg (by omega)]
    rw [if_pos (show (tagGet tagA "mapping" == "") = true by simp [hmap])]
    rw [if_neg hskipb]
    rw [if_neg (show ¬ ((uncommentDecorationNode f.comments == "") = true) by simp [hdoc])]
    simp [hnodoc, hupper, hnmb, hnm, hcu, List.headD_eq_head?]

/-- C9 counterexample: a field whose yaml tag is the empty primary key with
an option after the comma is not skipped: it is emitted as a Field with the
empty string as its tag, refuting the claim that an empty or dash primary key
always skips the field regardless of further options. -/
theorem ignored_tag_with_options_kept_counterexample :
    (collectFieldsLoop 10 envDemo [fC9] [] [] [] "" optsC3 st0).map
        (fun p => p.1.map fun fl => (fl.name, fl.tag)) = some [("Name", "")] ∧
    some [("Name", "")] ≠ some ([] : List (String × String)) := by
  exact ⟨by decide, by decide⟩

/-- C9 witness: the skip direction instantiated on a dash-tagged field
without options, and the keep direction on the comma demo field. -/
theorem yamlTag_skip_characterization_witness :
    (collectFieldsLoop 6 envDemo [⟨["Name"], some [("yaml", "-")], .interfaceT, ["// d"]⟩]
        [] [] [] "" optsC3 st0 =
      collectFieldsLoop 5 envDemo [] [] [] [] "" optsC3 st0) ∧
    (collectFieldsLoop 8 envDemo [fC9] [] [] [] "" optsC3 st0 =
      collectFieldsLoop 7 envDemo []
        ([] ++ [⟨"Name", goToLower ((goSplitComma (tagGet [("yaml", ",omitempty")] "yaml")).headD ""),
          formatFieldType TypeExprG.interfaceT "" false,
          getFieldType TypeExprG.interfaceT "" false,
          envDemo.pc (uncommentDecorationNode ["// d"]), "", []⟩])
        ([] ++ []) [] "" optsC3 st0) :=
  ⟨yamlTag_skip_characterization.1 5 envDemo
      ⟨["Name"], some [("yaml", "-")], .interfaceT, ["// d"]⟩ [] [] [] [] "" optsC3 st0
      [("yaml", "-")] "Name" [] rfl rfl (by decide) (by decide) (by decide),
    yamlTag_skip_characterization.2 7 envDemo fC9 [] [] [] [] "" optsC3 st0
      [("yaml", ",omitempty")] "Name" [] [] st0 rfl rfl (by decide) (by decide)
      (by decide) (by decide) (by decide) (by decide)⟩
